import Mathlib

/-!
Verification of the LinkFinderAPI extraction pipeline.

This file is a shallow embedding of `src/api.py` (the FastAPI port of
LinkFinder).  Text is modelled as `List Char`, Python exceptions as an
explicit error type threaded through `Except`, and the two external
libraries the source delegates to are modelled as parameters:

* `jsbeautifier.beautify` becomes an arbitrary function argument
  `beautify : List Char → List Char` (the source only chooses *whether*
  to call it);
* the `re` engine applied to the caller-supplied `filter_regex` string
  becomes a value of type `PyPattern`, i.e. the outcome of compiling the
  pattern: either an error message or a search predicate.

The fixed compound pattern `regex_str` is embedded by transcribing it
into a small executable backtracking matcher (`mtch` / `finditer`) that
reproduces the Python `re` semantics of the constructs the pattern uses:
ordered alternation, greedy (possibly bounded) repetition of a single
character class, literals, and capture groups, searched at the leftmost
starting position.
-/

/-- Python exception values that the code under `src/api.py` can raise:
`fastapi.HTTPException`, the `IndexError` raised by an out-of-range string
index, and `re.error` from compiling a bad pattern. -/
inductive PyErr where
  | httpExc (status : Nat) (detail : String)
  | indexError
  | reError (msg : String)
deriving DecidableEq

/-- Python `str(e)` for the exceptions of `PyErr` (starlette renders an
`HTTPException` as `"{status_code}: {detail}"`). -/
def pyStr : PyErr → String
  | .httpExc status detail => toString status ++ ": " ++ detail
  | .indexError => "string index out of range"
  | .reError msg => msg

/-- Captured groups: association list from group index to captured text. -/
abbrev Caps := List (Nat × List Char)

/-- The regex fragments appearing in `regex_str`: every quantifier in that
pattern ranges over a single character class, so `rep` takes a class, a
lower bound and an optional upper bound. -/
inductive RE where
  | eps
  | cls (p : Char → Bool)
  | lit (w : List Char)
  | seq (a b : RE)
  | alt (a b : RE)
  | rep (p : Char → Bool) (lo : Nat) (hi : Option Nat)
  | grp (i : Nat) (r : RE)

/-- Greedy backtracking for a class repetition: try consuming `n` characters
first, then `n - 1`, ..., down to `lo`. -/
def repStep (s : List Char) (caps : Caps)
    (k : List Char → Caps → Option (List Char × Caps)) (lo : Nat) :
    Nat → Option (List Char × Caps)
  | 0 =>
    match k (s.drop 0) caps with
    | some r => some r
    | none => none
  | n + 1 =>
    match k (s.drop (n + 1)) caps with
    | some r => some r
    | none => if lo < n + 1 then repStep s caps k lo n else none

/-- Backtracking matcher in continuation-passing style.  `mtch r s caps k`
tries to match `r` at the start of `s`; on each way of matching (longest
first for repetitions, leftmost branch first for alternations) it calls the
continuation `k` with the remaining input and the captures recorded so far,
returning the first overall success — exactly the Python `re` backtracking
order for these constructs. -/
def mtch : RE → List Char → Caps →
    (List Char → Caps → Option (List Char × Caps)) → Option (List Char × Caps)
  | .eps, s, caps, k => k s caps
  | .cls p, s, caps, k =>
    match s with
    | [] => none
    | c :: rest => if p c then k rest caps else none
  | .lit w, s, caps, k => if w.isPrefixOf s then k (s.drop w.length) caps else none
  | .seq a b, s, caps, k => mtch a s caps fun t caps2 => mtch b t caps2 k
  | .alt a b, s, caps, k =>
    match mtch a s caps k with
    | some r => some r
    | none => mtch b s caps k
  | .rep p lo hi, s, caps, k =>
    let run := (s.takeWhile p).length
    let m := min run (hi.getD run)
    if m < lo then none else repStep s caps k lo m
  | .grp i r, s, caps, k =>
    mtch r s caps fun t caps2 => k t ((i, s.take (s.length - t.length)) :: caps2)

/-- One match as produced by `re.finditer`: `link` is `m.group(1)`,
`startIdx`/`endIdx` are `m.start(0)`/`m.end(0)`, and `altIdx` records which
of the five alternatives of the compound pattern fired (1–5), i.e. which of
the inner groups 2–6 participated in the match. -/
structure PyMatch where
  link : List Char
  startIdx : Nat
  endIdx : Nat
  altIdx : Nat
deriving DecidableEq

/-- Which alternative of the compound pattern matched, from the captures. -/
def altOf (caps : Caps) : Nat :=
  if (caps.lookup 2).isSome then 1
  else if (caps.lookup 3).isSome then 2
  else if (caps.lookup 4).isSome then 3
  else if (caps.lookup 5).isSome then 4
  else if (caps.lookup 6).isSome then 5
  else 0

/-- Scan of `re.finditer`: try the pattern at position `i`; on success emit
the match and continue right after it, otherwise advance one character.
`fuel` only serves termination; `finditer` supplies enough for any pattern
that consumes at least one character per match (the compound pattern always
consumes at least the two quote delimiters). -/
def finditerFrom (r : RE) (s : List Char) : Nat → Nat → List PyMatch
  | _, 0 => []
  | i, fuel + 1 =>
    if i ≤ s.length then
      match mtch r (s.drop i) [] fun rest caps => some (rest, caps) with
      | some (rest, caps) =>
        let len := s.length - i - rest.length
        { link := (caps.lookup 1).getD [], startIdx := i, endIdx := i + len,
          altIdx := altOf caps } :: finditerFrom r s (i + len) fuel
      | none => finditerFrom r s (i + 1) fuel
    else []

/-- All non-overlapping matches of `r` in `s`, leftmost first. -/
def finditer (r : RE) (s : List Char) : List PyMatch :=
  finditerFrom r s 0 (s.length + 1)

/-! ### Transcription of `regex_str`

The verbose-mode pattern of `src/api.py` lines 21–60, alternative by
alternative.  Whitespace outside character classes is insignificant in
`re.VERBOSE`; the space inside the class on line 33 is significant and kept. -/

/-- Start/end delimiter `(?:"|')`. -/
def isQuote (c : Char) : Bool := c = '"' || c = '\''

/-- Class `[^"'/]` (domain name characters). -/
def domainCls (c : Char) : Bool := !(c = '"' || c = '\'' || c = '/')

/-- Class `[^"']`. -/
def anyNoQuoteCls (c : Char) : Bool := !(c = '"' || c = '\'')

/-- The characters excluded by `[^"'><,;| *()(%%$^/\\\[\]]` (line 33);
note the significant space and the duplicated `(` and `%`. -/
def alt2FirstExcluded : List Char :=
  ['"', '\'', '>', '<', ',', ';', '|', ' ', '*', '(', ')', '%', '$', '^', '/', '\\', '[', ']']

/-- The characters excluded by `[^"'><,;|()]` (line 34). -/
def alt2RestExcluded : List Char :=
  ['"', '\'', '>', '<', ',', ';', '|', '(', ')']

/-- Path-safe class of lines 38/45: letters, digits, underscore, hyphen, slash. -/
def pathSafeCls (c : Char) : Bool := c.isAlphanum || c = '_' || c = '-' || c = '/'

/-- Resource-name class of line 39: the path-safe class plus the dot. -/
def resourceCls (c : Char) : Bool := pathSafeCls c || c = '.'

/-- Filename class of line 51: letters, digits, underscore, hyphen. -/
def fnameCls (c : Char) : Bool := c.isAlphanum || c = '_' || c = '-'

/-- Class `[\?|#]`. -/
def queryHeadCls (c : Char) : Bool := c = '?' || c = '|' || c = '#'

/-- Class `[^"|']`. -/
def queryBodyCls (c : Char) : Bool := !(c = '"' || c = '|' || c = '\'')

/-- Concatenation of a list of fragments. -/
def seqs (l : List RE) : RE := l.foldr .seq .eps

/-- Optional query/fragment suffix `(?:[\?|#][^"|']{0,}|)`. -/
def queryOpt : RE :=
  .alt (.seq (.cls queryHeadCls) (.rep queryBodyCls 0 none)) .eps

/-- Alternative 1 (group 2): scheme or `//`, a domain name with a dot,
then extension and/or path — lines 26–28. -/
def reAlt1 : RE :=
  seqs [ .alt (seqs [.rep Char.isAlpha 1 (some 10), .lit (("://").data)])
              (.lit (("//").data)),
         .rep domainCls 1 none, .lit ((".").data),
         .rep Char.isAlpha 2 none, .rep anyNoQuoteCls 0 none ]

/-- Alternative 2 (group 3): starts with `/`, `../` or `./` — lines 32–34. -/
def reAlt2 : RE :=
  seqs [ .alt (.lit (("/").data)) (.alt (.lit (("../").data)) (.lit (("./").data))),
         .cls (fun c => !(alt2FirstExcluded.contains c)),
         .rep (fun c => !(alt2RestExcluded.contains c)) 1 none ]

/-- Extension alternation of alternative 3: `(?:[a-zA-Z]{1,4}|action)`. -/
def ext3 : RE := .alt (.rep Char.isAlpha 1 (some 4)) (.lit (("action").data))

/-- Alternative 3 (group 4): relative endpoint with extension — lines 38–41. -/
def reAlt3 : RE :=
  seqs [ .rep pathSafeCls 1 none, .lit (("/").data),
         .rep resourceCls 1 none, .lit ((".").data), ext3, queryOpt ]

/-- Alternative 4 (group 5): REST endpoint without extension — lines 45–47. -/
def reAlt4 : RE :=
  seqs [ .rep pathSafeCls 1 none, .lit (("/").data),
         .rep pathSafeCls 3 none, queryOpt ]

/-- Extension alternation of alternative 5 — lines 52–53. -/
def ext5 : RE :=
  .alt (.lit (("php").data)) (.alt (.lit (("asp").data)) (.alt (.lit (("aspx").data))
    (.alt (.lit (("jsp").data)) (.alt (.lit (("json").data)) (.alt (.lit (("action").data))
      (.alt (.lit (("html").data)) (.alt (.lit (("js").data)) (.alt (.lit (("txt").data))
        (.lit (("xml").data))))))))))

/-- Alternative 5 (group 6): bare filename with a known extension — lines 51–54. -/
def reAlt5 : RE :=
  seqs [ .rep fnameCls 1 none, .lit ((".").data), ext5, queryOpt ]

/-- The compound pattern `regex_str` of `src/api.py` lines 21–60: a quote
delimiter, the outer capture group 1 over the ordered five alternatives
(inner groups 2–6), and a closing quote delimiter. -/
def regex_str : RE :=
  seqs [ .cls isQuote,
         .grp 1 (.alt (.grp 2 reAlt1) (.alt (.grp 3 reAlt2)
           (.alt (.grp 4 reAlt3) (.alt (.grp 5 reAlt4) (.grp 6 reAlt5))))),
         .cls isQuote ]

/-! ### Embedding of the pipeline functions of `src/api.py` -/

/-- Python slice `content[s:e]` for non-negative bounds. -/
def pySlice (l : List Char) (s e : Nat) : List Char := (l.take e).drop s

/-- Line 62: the module-level context delimiter, the single character
line break. -/
def context_delimiter_str : List Char := [ '\n' ]

/-- The backward scan of `get_context` (line 102):
`while content[i] != context_delimiter_str and i > 0: i -= 1`.
Python evaluates `content[i]` before the bound test, so an out-of-range
index raises `IndexError`; the comparison is between the one-character
string `content[i]` and the delimiter string. -/
def scanBack (content : List Char) (delim : List Char) : Nat → Except PyErr Nat
  | 0 =>
    match content.get? 0 with
    | none => .error .indexError
    | some _ => .ok 0
  | i + 1 =>
    match content.get? (i + 1) with
    | none => .error .indexError
    | some c => if [ c ] = delim then .ok (i + 1) else scanBack content delim i

/-- The forward scan of `get_context` (line 105):
`while content[i] != context_delimiter_str and i < content_max_index: i += 1`.
Again `content[i]` is evaluated before the bound test.  The `fuel` argument
is kept equal to `maxIdx - i`, so `fuel = 0` is exactly the case
`i ≥ maxIdx` in which the loop exits after the character access. -/
def scanFwdAux (content : List Char) (delim : List Char) : Nat → Nat → Except PyErr Nat
  | i, 0 =>
    match content.get? i with
    | none => .error .indexError
    | some _ => .ok i
  | i, fuel + 1 =>
    match content.get? i with
    | none => .error .indexError
    | some c => if [ c ] = delim then .ok i else scanFwdAux content delim (i + 1) fuel

/-- The forward scan, entered at index `i` with bound `content_max_index`. -/
def scanFwd (content : List Char) (delim : List Char) (maxIdx : Nat) (i : Nat) :
    Except PyErr Nat :=
  scanFwdAux content delim i (maxIdx - i)

/-- One finding of the pipeline: the matched link and, in context mode,
its surrounding context. -/
structure Finding where
  link : List Char
  context : Option (List Char) := none
deriving DecidableEq

/-- Body of the `get_context` loop (lines 93–117) for one match tuple
`(link, start_index, end_index)`. -/
def getContextOne (content : List Char) (include_delimiter : Bool)
    (context_delimiter_str : List Char) (m : List Char × Nat × Nat) :
    Except PyErr Finding := do
  let match_str := m.1
  let match_start := m.2.1
  let match_end := m.2.2
  let delimiter_len := context_delimiter_str.length
  let content_max_index := content.length - 1
  let context_start_index ← scanBack content context_delimiter_str match_start
  let context_end_index ← scanFwd content context_delimiter_str content_max_index match_end
  let context :=
    if include_delimiter then pySlice content context_start_index context_end_index
    else pySlice content (context_start_index + delimiter_len) context_end_index
  pure { link := match_str, context := some context }

/-- `get_context` of lines 85–119: build one finding with context per match
tuple; a raised exception aborts the whole call. -/
def get_context (list_matches : List (List Char × Nat × Nat)) (content : List Char)
    (include_delimiter : Bool := false)
    (context_delimiter_str : List Char := [ '\n' ]) : Except PyErr (List Finding) :=
  list_matches.mapM (getContextOne content include_delimiter context_delimiter_str)

/-- Python `str.replace` for a single-character needle: every occurrence of
`old` is replaced by `new`. -/
def pyReplace1 (old : Char) (new : List Char) : List Char → List Char
  | [] => []
  | c :: rest => (if c = old then new else [ c ]) ++ pyReplace1 old new rest

/-- Line 139, the cheap reformatting for very large inputs:
`content.replace(";", ";\r\n").replace(",", ",\r\n")`. -/
def cheapReplace (content : List Char) : List Char :=
  pyReplace1 ',' ((",\r\n").data) (pyReplace1 ';' ((";\r\n").data) content)

/-- The deduplication loop of lines 153–158, with `all_links` the set of
links seen so far. -/
def dedupAux (all_links : List (List Char)) : List Finding → List Finding
  | [] => []
  | item :: rest =>
    if item.link ∈ all_links then dedupAux all_links rest
    else item :: dedupAux (item.link :: all_links) rest

/-- Deduplication as performed by `parser_file` when `no_dup` is set. -/
def dedup (items : List Finding) : List Finding := dedupAux [] items

/-- A caller-supplied filter pattern, modelled as the outcome of handing the
pattern string to the external `re` engine: either a compilation error
message or a predicate telling, for each link, whether `re.search` finds a
match somewhere in it. -/
abbrev PyPattern := Except String (List Char → Bool)

/-- `re.search(more_regex, link)` for a caller-supplied pattern: compiling an
invalid pattern raises `re.error`. -/
def pySearch (pat : PyPattern) (s : List Char) : Except PyErr Bool :=
  match pat with
  | .error msg => .error (.reError msg)
  | .ok p => .ok (p s)

/-- The filter loop of lines 162–169: items are visited in order; with a
pattern present, `re.search` is evaluated on each item link (raising on the
first item if the pattern is invalid); without a pattern every item is kept. -/
def filterItems (more_regex : Option PyPattern) : List Finding → Except PyErr (List Finding)
  | [] => .ok []
  | item :: rest =>
    match more_regex with
    | some pat => do
      let b ← pySearch pat item.link
      let r ← filterItems more_regex rest
      pure (if b then item :: r else r)
    | none => do
      let r ← filterItems more_regex rest
      pure (item :: r)

/-- Lines 143–171 of `parser_file`, after the reformatting step: match the
compound pattern, extract contexts in context mode, deduplicate, filter. -/
def parserAfterReformat (content : List Char) (mode : Bool)
    (more_regex : Option PyPattern) (no_dup : Bool) : Except PyErr (List Finding) := do
  let items ←
    if mode then
      get_context ((finditer regex_str content).map fun m => (m.link, m.startIdx, m.endIdx))
        content false context_delimiter_str
    else
      pure ((finditer regex_str content).map fun m => { link := m.link, context := none })
  let items := if no_dup then dedup items else items
  filterItems more_regex items

/-- `parser_file` of lines 122–171.  In context mode the content is first
reformatted: the cheap substitution for more than 1,000,000 characters,
otherwise the full `jsbeautifier.beautify`, supplied here as the function
parameter `beautify`. -/
def parser_file (beautify : List Char → List Char) (content : List Char)
    (mode : Bool) (more_regex : Option PyPattern) (no_dup : Bool) :
    Except PyErr (List Finding) :=
  parserAfterReformat
    (if mode then
      (if content.length > 1000000 then cheapReplace content else beautify content)
     else content)
    mode more_regex no_dup

/-- Request model of lines 65–70. -/
structure LinkFinderRequest where
  content : List Char
  include_context : Bool := true
  filter_regex : Option PyPattern := none
  remove_duplicates : Bool := true

/-- Response item of lines 73–76. -/
structure EndpointResult where
  link : List Char
  context : Option (List Char) := none
deriving DecidableEq

/-- Response model of lines 79–82. -/
structure LinkFinderResponse where
  endpoints : List EndpointResult
  total_count : Nat
deriving DecidableEq

/-- Python whitespace as stripped by `str.strip`: the exact CPython set
(code points 0x09–0x0D, 0x1C–0x1F, 0x20, 0x85, 0xA0, 0x1680, 0x2000–0x200A,
0x2028, 0x2029, 0x202F, 0x205F, 0x3000). -/
def isPySpace (c : Char) : Bool :=
  let n := c.toNat
  (0x09 ≤ n && n ≤ 0x0d) || n = 0x20 || (0x1c ≤ n && n ≤ 0x1f) ||
  n = 0x85 || n = 0xa0 || n = 0x1680 || (0x2000 ≤ n && n ≤ 0x200a) ||
  n = 0x2028 || n = 0x2029 || n = 0x202f || n = 0x205f || n = 0x3000

/-- `not request.content.strip()`: true exactly when the content is empty or
consists only of whitespace. -/
def pyStripEmpty (s : List Char) : Bool := s.all isPySpace

/-- The `/analyze` handler `analyze_javascript` of lines 188–230.  The whole
body runs inside `try`, so every raised exception — including the
`HTTPException(400)` for empty content raised on line 201 — is caught by the
`except Exception` clause on line 229 and re-raised as
`HTTPException(500, "Error processing content: " + str(e))`. -/
def analyze_javascript (beautify : List Char → List Char)
    (request : LinkFinderRequest) : Except PyErr LinkFinderResponse :=
  let body : Except PyErr LinkFinderResponse :=
    if pyStripEmpty request.content then
      .error (.httpExc 400 ("Content cannot be empty"))
    else do
      let endpoints ← parser_file beautify request.content request.include_context
        request.filter_regex request.remove_duplicates
      let endpoint_results := endpoints.map fun e =>
        { link := e.link,
          context := if request.include_context then e.context else none : EndpointResult }
      pure { endpoints := endpoint_results, total_count := endpoint_results.length }
  match body with
  | .ok r => .ok r
  | .error e => .error (.httpExc 500 ("Error processing content: " ++ pyStr e))

/-! ### Specification-side definitions -/

/-- Modelled from the specification words of §4.4 for the refinement claim
about deduplication: stable, first-occurrence-wins, keyed strictly on the
link — keep the first finding of each link (with its context) and drop every
later finding with the same link. -/
def specDedup : List Finding → List Finding
  | [] => []
  | x :: xs => x :: specDedup (xs.filter fun y => decide (y.link ≠ x.link))
termination_by l => l.length
decreasing_by
  simp only [List.length_cons]
  exact Nat.lt_succ_of_le (List.length_filter_le _ _)

/-! ### Helper lemmas about lists, slices and the scan loops -/

theorem listGetSome {α : Type} (l : List α) : ∀ n a, l.get? n = some a → n < l.length := by
  intro n a h
  have := List.get?_eq_some.mp h
  exact this.1

theorem listGetLt {α : Type} (l : List α) : ∀ n, n < l.length → ∃ a, l.get? n = some a := by
  intro n h
  cases hg : l.get? n with
  | none => exact absurd (List.get?_eq_none.mp hg) (by omega)
  | some a => exact ⟨a, rfl⟩

theorem listDropCons {α : Type} (l : List α) : ∀ n a, l.get? n = some a →
    l.drop n = a :: l.drop (n + 1) := by
  induction l with
  | nil => intro n a h; simp at h
  | cons x xs ih =>
    intro n a h
    cases n with
    | zero => simp at h; simp [h]
    | succ m =>
      simp only [List.get?] at h
      simpa using ih m a h

theorem listTakeGet {α : Type} (l : List α) : ∀ n i, i < n → (l.take n).get? i = l.get? i := by
  induction l with
  | nil => intro n i _; simp
  | cons x xs ih =>
    intro n i hlt
    cases n with
    | zero => omega
    | succ m =>
      cases i with
      | zero => simp
      | succ j => simpa using ih m j (by omega)

theorem pySliceCons (l : List Char) (s e : Nat) (ch : Char)
    (hg : l.get? s = some ch) (hse : s < e) :
    pySlice l s e = ch :: pySlice l (s + 1) e := by
  unfold pySlice
  have : (l.take e).get? s = some ch := by rw [listTakeGet l e s hse]; exact hg
  exact listDropCons (l.take e) s ch this

theorem listTakeSucc {α : Type} (l : List α) : ∀ e a, l.get? e = some a →
    l.take (e + 1) = l.take e ++ [ a ] := by
  induction l with
  | nil => intro e a h; simp at h
  | cons x xs ih =>
    intro e a h
    cases e with
    | zero => simp at h; simp [h]
    | succ m =>
      simp only [List.get?] at h
      simp [List.take_succ_cons, ih m a h]

theorem listDropAppendLe {α : Type} : ∀ (l₁ l₂ : List α) (n : Nat), n ≤ l₁.length →
    (l₁ ++ l₂).drop n = l₁.drop n ++ l₂ := by
  intro l₁
  induction l₁ with
  | nil =>
    intro l₂ n h
    have : n = 0 := by simpa using h
    subst this
    simp
  | cons x xs ih =>
    intro l₂ n h
    cases n with
    | zero => simp
    | succ m => simpa using ih l₂ m (by simpa using h)

theorem pySliceSnoc (l : List Char) (s e : Nat) (ch : Char)
    (hg : l.get? e = some ch) (hse : s ≤ e) :
    pySlice l s (e + 1) = pySlice l s e ++ [ ch ] := by
  unfold pySlice
  rw [listTakeSucc l e ch hg]
  have hlen : s ≤ (l.take e).length := by
    have := listGetSome l e ch hg
    simp [List.length_take]; omega
  exact listDropAppendLe (l.take e) [ ch ] s hlen

theorem pySliceInfix (l : List Char) (s e : Nat) :
    List.IsInfix (pySlice l s e) l := by
  refine ⟨(l.take e).take s, l.drop e, ?_⟩
  unfold pySlice
  rw [List.take_append_drop s (l.take e)]
  exact List.take_append_drop e l

/-- Step equation of the backward scan at index 0. -/
theorem scanBack_zero (c : List Char) (dl : List Char) (ch : Char)
    (hg : c.get? 0 = some ch) : scanBack c dl 0 = .ok 0 := by
  unfold scanBack
  rw [hg]

/-- Step equation of the backward scan at a positive index. -/
theorem scanBack_succ (c : List Char) (dl : List Char) (i : Nat) (ch : Char)
    (hg : c.get? (i + 1) = some ch) :
    scanBack c dl (i + 1) = if [ ch ] = dl then .ok (i + 1) else scanBack c dl i := by
  conv_lhs => unfold scanBack
  rw [hg]

/-- Step equation of the forward scan with no fuel left. -/
theorem scanFwdAux_zero (c : List Char) (dl : List Char) (i : Nat) (ch : Char)
    (hg : c.get? i = some ch) : scanFwdAux c dl i 0 = .ok i := by
  unfold scanFwdAux
  rw [hg]

/-- Step equation of the forward scan with fuel left. -/
theorem scanFwdAux_succ (c : List Char) (dl : List Char) (i fuel : Nat) (ch : Char)
    (hg : c.get? i = some ch) :
    scanFwdAux c dl i (fuel + 1) =
      if [ ch ] = dl then .ok i else scanFwdAux c dl (i + 1) fuel := by
  conv_lhs => unfold scanFwdAux
  rw [hg]

/-- An out-of-range access makes the backward scan raise. -/
theorem scanBack_oob (c : List Char) (dl : List Char) (i : Nat)
    (hg : c.get? i = none) : scanBack c dl i = .error .indexError := by
  cases i with
  | zero => unfold scanBack; rw [hg]
  | succ m => unfold scanBack; rw [hg]

/-- Characterisation of a successful backward scan: the result is below the
start index, every index strictly between result and start holds a
non-delimiter character, and the scan stopped either on a delimiter or at
index 0. -/
theorem scanBack_spec (c : List Char) (d : Char) : ∀ i j, scanBack c [ d ] i = .ok j →
    j ≤ i ∧ (∀ k, j < k → k ≤ i → ∃ ch, c.get? k = some ch ∧ ch ≠ d) ∧
    (∃ ch, c.get? j = some ch ∧ (ch = d ∨ j = 0)) := by
  intro i
  induction i with
  | zero =>
    intro j h
    cases hg : c.get? 0 with
    | none => rw [scanBack_oob c [ d ] 0 hg] at h; exact absurd h (by simp)
    | some ch =>
      rw [scanBack_zero c [ d ] ch hg] at h
      simp only [Except.ok.injEq] at h
      subst h
      exact ⟨Nat.le_refl 0, fun k hk1 hk2 => absurd hk1 (by omega), ⟨ch, hg, Or.inr rfl⟩⟩
  | succ i ih =>
    intro j h
    cases hg : c.get? (i + 1) with
    | none => rw [scanBack_oob c [ d ] (i + 1) hg] at h; exact absurd h (by simp)
    | some ch =>
      rw [scanBack_succ c [ d ] i ch hg] at h
      by_cases hd : ch = d
      · rw [if_pos (by simp [hd])] at h
        simp only [Except.ok.injEq] at h
        subst h
        exact ⟨Nat.le_refl _, fun k hk1 hk2 => absurd hk1 (by omega), ⟨ch, hg, Or.inl hd⟩⟩
      · rw [if_neg (by simp [hd])] at h
        obtain ⟨h1, h2, h3⟩ := ih j h
        refine ⟨by omega, fun k hk1 hk2 => ?_, h3⟩
        rcases Nat.lt_or_ge k (i + 1) with hk | hk
        · exact h2 k hk1 (by omega)
        · have : k = i + 1 := by omega
          subst this
          exact ⟨ch, hg, hd⟩

/-- The backward scan succeeds whenever the start index is in bounds. -/
theorem scanBack_total (c : List Char) (d : Char) : ∀ i, i < c.length →
    ∃ j, scanBack c [ d ] i = .ok j := by
  intro i
  induction i with
  | zero =>
    intro h
    obtain ⟨a, ha⟩ := listGetLt c 0 h
    exact ⟨0, scanBack_zero c [ d ] a ha⟩
  | succ i ih =>
    intro h
    obtain ⟨a, ha⟩ := listGetLt c (i + 1) h
    by_cases hd : a = d
    · exact ⟨i + 1, by rw [scanBack_succ c [ d ] i a ha, if_pos (by simp [hd])]⟩
    · obtain ⟨j, hj⟩ := ih (by omega)
      exact ⟨j, by rw [scanBack_succ c [ d ] i a ha, if_neg (by simp [hd])]; exact hj⟩

/-- Characterisation of a successful forward scan with `fuel` steps left:
the result lies between the start index and `i + fuel`, every index visited
before it holds a non-delimiter character, and the scan stopped either on a
delimiter or with the fuel exhausted. -/
theorem scanFwdAux_spec (c : List Char) (d : Char) : ∀ fuel i e,
    scanFwdAux c [ d ] i fuel = .ok e →
    i ≤ e ∧ e ≤ i + fuel ∧ (∀ k, i ≤ k → k < e → ∃ ch, c.get? k = some ch ∧ ch ≠ d) ∧
    (∃ ch, c.get? e = some ch ∧ (ch = d ∨ e = i + fuel)) := by
  intro fuel
  induction fuel with
  | zero =>
    intro i e h
    cases hg : c.get? i with
    | none =>
      unfold scanFwdAux at h
      rw [hg] at h
      exact absurd h (by simp)
    | some ch =>
      rw [scanFwdAux_zero c [ d ] i ch hg] at h
      simp only [Except.ok.injEq] at h
      subst h
      exact ⟨Nat.le_refl i, by omega, fun k hk1 hk2 => absurd hk1 (by omega),
        ⟨ch, hg, Or.inr (by omega)⟩⟩
  | succ fuel ih =>
    intro i e h
    cases hg : c.get? i with
    | none =>
      unfold scanFwdAux at h
      rw [hg] at h
      exact absurd h (by simp)
    | some ch =>
      rw [scanFwdAux_succ c [ d ] i fuel ch hg] at h
      by_cases hd : ch = d
      · rw [if_pos (by simp [hd])] at h
        simp only [Except.ok.injEq] at h
        subst h
        exact ⟨Nat.le_refl i, by omega, fun k hk1 hk2 => absurd hk1 (by omega),
          ⟨ch, hg, Or.inl hd⟩⟩
      · rw [if_neg (by simp [hd])] at h
        obtain ⟨h1, h2, h3, h4⟩ := ih (i + 1) e h
        refine ⟨by omega, by omega, fun k hk1 hk2 => ?_, ?_⟩
        · rcases Nat.lt_or_ge i k with hk | hk
          · exact h3 k (by omega) hk2
          · have : k = i := by omega
            subst this
            exact ⟨ch, hg, hd⟩
        · obtain ⟨ch2, hg2, hor⟩ := h4
          rcases hor with hor | hor
          · exact ⟨ch2, hg2, Or.inl hor⟩
          · exact ⟨ch2, hg2, Or.inr (by omega)⟩

/-- The forward scan succeeds whenever every index it can visit is in
bounds. -/
theorem scanFwdAux_total (c : List Char) (d : Char) : ∀ fuel i, i + fuel < c.length →
    ∃ e, scanFwdAux c [ d ] i fuel = .ok e := by
  intro fuel
  induction fuel with
  | zero =>
    intro i h
    obtain ⟨a, ha⟩ := listGetLt c i (by omega)
    exact ⟨i, scanFwdAux_zero c [ d ] i a ha⟩
  | succ fuel ih =>
    intro i h
    obtain ⟨a, ha⟩ := listGetLt c i (by omega)
    by_cases hd : a = d
    · exact ⟨i, by rw [scanFwdAux_succ c [ d ] i fuel a ha, if_pos (by simp [hd])]⟩
    · obtain ⟨e, he⟩ := ih (i + 1) (by omega)
      exact ⟨e, by rw [scanFwdAux_succ c [ d ] i fuel a ha, if_neg (by simp [hd])]; exact he⟩

/-- Evaluation of one context extraction in delimiter-exclusive mode, given
the outcomes of the two scans. -/
theorem getContextOne_eq (content : List Char) (d : Char) (s : List Char) (a b j e : Nat)
    (hj : scanBack content [ d ] a = .ok j)
    (he : scanFwd content [ d ] (content.length - 1) b = .ok e) :
    getContextOne content false [ d ] (s, a, b) =
      .ok { link := s, context := some (pySlice content (j + 1) e) } := by
  unfold getContextOne
  simp [hj, he]
  rfl

/-- Evaluation of `get_context` on a single match, given the outcomes of the
two scans. -/
theorem get_context_single (content : List Char) (d : Char) (s : List Char) (a b j e : Nat)
    (hj : scanBack content [ d ] a = .ok j)
    (he : scanFwd content [ d ] (content.length - 1) b = .ok e) :
    get_context [(s, a, b)] content false [ d ] =
      .ok [{ link := s, context := some (pySlice content (j + 1) e) }] := by
  unfold get_context List.mapM
  simp [List.mapM.loop, getContextOne_eq content d s a b j e hj he]

/-- A slice with nested bounds is an infix of the wider slice. -/
theorem pySliceInfixSlice (l : List Char) (j a b e1 : Nat)
    (hja : j ≤ a) (hab : a ≤ b) (hbe : b ≤ e1) (hjl : j ≤ l.length) :
    List.IsInfix (pySlice l a b) (pySlice l j e1) := by
  refine ⟨(l.take a).drop j, (l.take e1).drop b, ?_⟩
  unfold pySlice
  have hb2 : l.take b = l.take a ++ (l.take b).drop a := by
    conv_lhs => rw [← List.take_append_drop a (l.take b)]
    rw [List.take_take, min_eq_left hab]
  have he2 : l.take e1 = l.take b ++ (l.take e1).drop b := by
    conv_lhs => rw [← List.take_append_drop b (l.take e1)]
    rw [List.take_take, min_eq_left hbe]
  have hlen : j ≤ (l.take a).length := by
    simp [List.length_take]
    omega
  conv_rhs => rw [he2, hb2, List.append_assoc]
  rw [listDropAppendLe (l.take a) ((l.take b).drop a ++ (l.take e1).drop b) j hlen,
    List.append_assoc]

/-- C2, counterexample: the claim fails as stated.  On the non-empty text
`"ab"` the match `("ab", 0, 2)` satisfies the Match invariant
`0 <= start <= end <= length(text)`, yet context extraction evaluates
`content[2]` out of bounds and raises; and on `"abc"` a match at the very
start of the text yields the context `"b"`, which begins at index 1, not at
index 0 (the exclusive slice skips the delimiter length even though no
delimiter was found). -/
theorem get_context_c2_counterexample :
    (0 ≤ 2 ∧ 2 ≤ (("ab").data).length) ∧
    get_context [((("ab").data), 0, 2)] (("ab").data) false context_delimiter_str =
      .error .indexError ∧
    get_context [((("ab").data), 0, 2)] (("abc").data) false context_delimiter_str =
      .ok [{ link := ("ab").data, context := some [ 'b' ] }] := by
  exact ⟨⟨by omega, by simp⟩, rfl, rfl⟩

/-- C2, amended: for every match with `0 <= start <= end <= length(text) - 1`
on a non-empty text, context extraction performs no out-of-bounds access;
the backward scan boundary of a match at the very start of the text is
index 0 and the forward scan boundary never exceeds the last index of the
text, but the returned delimiter-exclusive context starts one position past
the backward boundary and excludes the character at the forward boundary. -/
theorem get_context_in_bounds (content : List Char) (d : Char) (s : List Char) (a b : Nat)
    (hab : a ≤ b) (hb : b + 1 ≤ content.length) :
    ∃ j e, scanBack content [ d ] a = .ok j ∧
      scanFwd content [ d ] (content.length - 1) b = .ok e ∧
      j ≤ a ∧ (a = 0 → j = 0) ∧ b ≤ e ∧ e ≤ content.length - 1 ∧
      get_context [(s, a, b)] content false [ d ] =
        .ok [{ link := s, context := some (pySlice content (j + 1) e) }] := by
  obtain ⟨j, hj⟩ := scanBack_total content d a (by omega)
  obtain ⟨e, he⟩ := scanFwdAux_total content d (content.length - 1 - b) b (by omega)
  have he2 : scanFwd content [ d ] (content.length - 1) b = .ok e := he
  obtain ⟨hj1, _, _⟩ := scanBack_spec content d a j hj
  obtain ⟨he1, heB, _, _⟩ := scanFwdAux_spec content d (content.length - 1 - b) b e he
  refine ⟨j, e, hj, he2, hj1, ?_, he1, by omega, ?_⟩
  · intro ha0
    subst ha0
    omega
  · exact get_context_single content d s a b j e hj he2

/-- C2, witness for the amended theorem at the concrete text `"abc"` with a
match spanning the whole text except the final character slot. -/
theorem get_context_in_bounds_witness :
    ∃ j e, scanBack (("abc").data) [ '\n' ] 0 = .ok j ∧
      scanFwd (("abc").data) [ '\n' ] ((("abc").data).length - 1) 2 = .ok e ∧
      j ≤ 0 ∧ (0 = 0 → j = 0) ∧ 2 ≤ e ∧ e ≤ (("abc").data).length - 1 ∧
      get_context [((("x").data), 0, 2)] (("abc").data) false [ '\n' ] =
        .ok [{ link := ("x").data, context := some (pySlice (("abc").data) (j + 1) e) }] :=
  get_context_in_bounds (("abc").data) '\n' (("x").data) 0 2 (by omega) (by simp)

/-- C3, counterexample: the claim fails as stated.  On the text
`"z\n'http://a.bc\nd' w\n"` — which the cheap reformatter leaves unchanged,
so it is a reachable reformatted text — the pipeline core produces a finding
whose delimiter-exclusive context contains the delimiter character `'\n'`
(the matched link itself spans a line break). -/
theorem context_contains_delimiter_counterexample :
    parserAfterReformat (("z\n'http://a.bc\nd' w\n").data) true none true =
      .ok [{ link := ("http://a.bc\nd").data,
             context := some (("'http://a.bc\nd' w").data) }] ∧
    '\n' ∈ (("'http://a.bc\nd' w").data) ∧
    cheapReplace (("z\n'http://a.bc\nd' w\n").data) = (("z\n'http://a.bc\nd' w\n").data) := by
  exact ⟨rfl, by decide, rfl⟩

/-- C3, amended: for every finding produced with context in the default
delimiter-exclusive mode, every occurrence of the delimiter character in the
context lies strictly inside the matched region (the context outside the
match is delimiter-free), and when both scans stopped on actual delimiter
characters, re-inserting the delimiter at both ends of the context yields
exactly the slice of the (reformatted) text from the backward boundary to
the forward boundary inclusive — a substring of the text containing the
matched region. -/
theorem context_boundary_invariant (content : List Char) (d : Char) (s : List Char)
    (a b j e : Nat)
    (hj : scanBack content [ d ] a = .ok j)
    (he : scanFwd content [ d ] (content.length - 1) b = .ok e)
    (hab : a < b) :
    get_context [(s, a, b)] content false [ d ] =
      .ok [{ link := s, context := some (pySlice content (j + 1) e) }] ∧
    (∀ p ch, j < p → p < e → content.get? p = some ch → ch = d → a < p ∧ p < b) ∧
    (∀ chj che, content.get? j = some chj → chj = d → content.get? e = some che → che = d →
      pySlice content j (e + 1) = [ d ] ++ pySlice content (j + 1) e ++ [ d ] ∧
      List.IsInfix (pySlice content j (e + 1)) content ∧
      List.IsInfix (pySlice content a b) (pySlice content j (e + 1))) := by
  obtain ⟨hj1, hjfree, _⟩ := scanBack_spec content d a j hj
  obtain ⟨he1, _, hefree, _⟩ := scanFwdAux_spec content d (content.length - 1 - b) b e he
  refine ⟨get_context_single content d s a b j e hj he, ?_, ?_⟩
  · intro p ch hpj hpe hget hchd
    subst hchd
    constructor
    · by_contra hcon
      push_neg at hcon
      obtain ⟨ch2, hg2, hne2⟩ := hjfree p hpj hcon
      rw [hget] at hg2
      exact hne2 (by injection hg2 with h2; exact h2.symm)
    · by_contra hcon
      push_neg at hcon
      obtain ⟨ch2, hg2, hne2⟩ := hefree p hcon hpe
      rw [hget] at hg2
      exact hne2 (by injection hg2 with h2; exact h2.symm)
  · intro chj che hgj hchj hge hche
    rw [hchj] at hgj
    rw [hche] at hge
    have hje : j < e := by omega
    have hsplit1 : pySlice content j (e + 1) = d :: pySlice content (j + 1) (e + 1) :=
      pySliceCons content j (e + 1) d hgj (by omega)
    have hsplit2 : pySlice content (j + 1) (e + 1) = pySlice content (j + 1) e ++ [ d ] :=
      pySliceSnoc content (j + 1) e d hge (by omega)
    refine ⟨by rw [hsplit1, hsplit2]; rfl, pySliceInfix content j (e + 1), ?_⟩
    have hjl : j ≤ content.length := Nat.le_of_lt (listGetSome content j d hgj)
    exact pySliceInfixSlice content j a b (e + 1) hj1 (by omega) (by omega) hjl

/-! ### Deduplication lemmas -/

/-- The deduplication loop computes the specification-side first-occurrence
deduplication of the items whose link has not been seen yet. -/
theorem dedupAux_eq_specDedup : ∀ (l : List Finding) (seen : List (List Char)),
    dedupAux seen l = specDedup (l.filter fun y => decide (y.link ∉ seen)) := by
  intro l
  induction l with
  | nil => intro seen; simp [dedupAux, specDedup]
  | cons x xs ih =>
    intro seen
    by_cases hx : x.link ∈ seen
    · rw [show dedupAux seen (x :: xs) = dedupAux seen xs from by simp [dedupAux, hx]]
      rw [ih seen]
      congr 1
      simp [List.filter_cons, hx]
    · rw [show dedupAux seen (x :: xs) = x :: dedupAux (x.link :: seen) xs from by
        simp [dedupAux, hx]]
      rw [show (x :: xs).filter (fun y => decide (y.link ∉ seen)) =
          x :: xs.filter (fun y => decide (y.link ∉ seen)) from by simp [List.filter_cons, hx]]
      rw [show specDedup (x :: xs.filter fun y => decide (y.link ∉ seen)) =
          x :: specDedup ((xs.filter fun y => decide (y.link ∉ seen)).filter
            fun y => decide (y.link ≠ x.link)) from by rw [specDedup]]
      rw [ih (x.link :: seen)]
      congr 1
      rw [List.filter_filter]
      congr 1
      refine List.filter_congr ?_
      intro y _
      by_cases h1 : y.link = x.link
      · simp [h1]
      · by_cases h2 : y.link ∈ seen <;> simp [h1, h2]

/-- Rerunning the deduplication loop on its own output changes nothing. -/
theorem dedupAux_idem : ∀ (l : List Finding) (seen : List (List Char)),
    dedupAux seen (dedupAux seen l) = dedupAux seen l := by
  intro l
  induction l with
  | nil => intro seen; simp [dedupAux]
  | cons x xs ih =>
    intro seen
    by_cases hx : x.link ∈ seen
    · rw [show dedupAux seen (x :: xs) = dedupAux seen xs from by simp [dedupAux, hx]]
      exact ih seen
    · rw [show dedupAux seen (x :: xs) = x :: dedupAux (x.link :: seen) xs from by
        simp [dedupAux, hx]]
      rw [show dedupAux seen (x :: dedupAux (x.link :: seen) xs) =
          x :: dedupAux (x.link :: seen) (dedupAux (x.link :: seen) xs) from by
        simp [dedupAux, hx]]
      rw [ih (x.link :: seen)]

/-! ### Filter-stage lemmas -/

/-- With a valid pattern, the filter stage keeps exactly the findings whose
link the pattern matches. -/
theorem filterItems_ok_eq (p : List Char → Bool) : ∀ items : List Finding,
    filterItems (some (.ok p)) items = .ok (items.filter fun i => p i.link) := by
  intro items
  induction items with
  | nil => simp [filterItems]
  | cons x xs ih =>
    rw [List.filter_cons]
    by_cases hp : p x.link
    · simp [filterItems, pySearch, ih, hp]
      rfl
    · simp [filterItems, pySearch, ih, hp]
      rfl

/-- With no pattern, the filter stage keeps everything. -/
theorem filterItems_none_eq : ∀ items : List Finding, filterItems none items = .ok items := by
  intro items
  induction items with
  | nil => simp [filterItems]
  | cons x xs ih => simp [filterItems, ih]

/-! ### Cheap-reformatter lemmas -/

theorem pyReplace1_append (old : Char) (new : List Char) : ∀ l1 l2 : List Char,
    pyReplace1 old new (l1 ++ l2) = pyReplace1 old new l1 ++ pyReplace1 old new l2 := by
  intro l1 l2
  induction l1 with
  | nil => simp [pyReplace1]
  | cons c rest ih => simp [pyReplace1, ih]

/-- The two sequential single-character replacements of the cheap path amount
to inserting the two-character sequence CR LF right after every `;` and
every `,`. -/
theorem cheapReplace_flatMap : ∀ l : List Char,
    cheapReplace l = l.flatMap fun ch =>
      if ch = ';' then [';', '\x0d', '\n']
      else if ch = ',' then [',', '\x0d', '\n']
      else [ ch ] := by
  intro l
  induction l with
  | nil => rfl
  | cons c rest ih =>
    unfold cheapReplace at ih ⊢
    rw [show pyReplace1 ';' ((";\r\n").data) (c :: rest) =
        (if c = ';' then (";\r\n").data else [ c ]) ++ pyReplace1 ';' ((";\r\n").data) rest
      from rfl]
    rw [pyReplace1_append, ih, List.flatMap_cons]
    congr 1
    by_cases h1 : c = ';'
    · subst h1
      rfl
    · by_cases h2 : c = ','
      · subst h2
        rfl
      · simp [pyReplace1, h1, h2]

/-! ### Claim theorems -/

/-- C1: the code is at odds with the claim.  Empty or whitespace-only
content does make the call fail with no findings, but the dedicated
invalid-input rejection (`HTTPException(400, "Content cannot be empty")`,
line 201) is raised inside the `try` block and caught by the
`except Exception` clause, which re-raises it as the generic processing
error `HTTPException(500, "Error processing content: ...")` — the kind the
claim says is reserved for other failures. -/
theorem empty_input_wrapped_as_processing_error :
    analyze_javascript id { content := [] } =
      .error (.httpExc 500 ("Error processing content: 400: Content cannot be empty")) ∧
    analyze_javascript id { content := ((" \t\n ").data) } =
      .error (.httpExc 500 ("Error processing content: 400: Content cannot be empty")) := by
  exact ⟨rfl, rfl⟩

/-- C4: threshold behaviour of the reformatting step.  Text of 1,000,001
characters takes the cheap substitution path (the result does not depend on
the beautifier at all), text of 999,999 characters takes the full
beautifier path, and without context the matcher runs on the unmodified
input with no reformatting. -/
theorem reformat_threshold_behavior :
    (∀ (b : List Char → List Char) (c : List Char) more nd, c.length = 1000001 →
      parser_file b c true more nd = parserAfterReformat (cheapReplace c) true more nd) ∧
    (∀ (b : List Char → List Char) (c : List Char) more nd, c.length = 999999 →
      parser_file b c true more nd = parserAfterReformat (b c) true more nd) ∧
    (∀ (b : List Char → List Char) (c : List Char) more nd,
      parser_file b c false more nd = parserAfterReformat c false more nd) ∧
    (∀ (b1 b2 : List Char → List Char) (c : List Char) more nd,
      parser_file b1 c false more nd = parser_file b2 c false more nd) := by
  refine ⟨?_, ?_, ?_, ?_⟩
  · intro b c more nd hlen
    unfold parser_file
    rw [hlen]
    norm_num
  · intro b c more nd hlen
    unfold parser_file
    rw [hlen]
    norm_num
  · intro b c more nd
    unfold parser_file
    norm_num
  · intro b1 b2 c more nd
    unfold parser_file
    norm_num

/-- C4, witness: the threshold equations applied at texts of exactly
1,000,001 and 999,999 characters. -/
theorem reformat_threshold_behavior_witness :
    parser_file id (List.replicate 1000001 'b') true none false =
      parserAfterReformat (cheapReplace (List.replicate 1000001 'b')) true none false ∧
    parser_file id (List.replicate 999999 'b') true none false =
      parserAfterReformat (List.replicate 999999 'b') true none false :=
  ⟨reformat_threshold_behavior.1 id _ none false (List.length_replicate 1000001 'b'),
   reformat_threshold_behavior.2.1 id _ none false (List.length_replicate 999999 'b')⟩

/-- C5: deduplication equals the specification-side stable
first-occurrence-wins deduplication keyed strictly on the link: the first
finding of each link is kept together with its context, later findings with
the same link are dropped, and the output order is the order of first
occurrence. -/
theorem dedup_first_occurrence_stable : ∀ items : List Finding,
    dedup items = specDedup items := by
  intro items
  have h := dedupAux_eq_specDedup items []
  rw [dedup] at *
  simpa using h

/-- C8: deduplication is idempotent. -/
theorem dedup_idempotent : ∀ items : List Finding, dedup (dedup items) = dedup items :=
  fun items => dedupAux_idem items []

/-- C6, counterexample: the claim fails as stated.  With non-empty content
in which the pattern finds nothing and an invalid (uncompilable) filter
pattern, the call succeeds with an empty result instead of failing fast:
the filter loop never evaluates the pattern because no finding reaches it. -/
theorem invalid_filter_counterexample :
    analyze_javascript id
      { content := (("abc").data), include_context := false,
        filter_regex := some (.error ("missing ), unterminated subpattern")),
        remove_duplicates := true } =
      .ok { endpoints := [], total_count := 0 } := by
  exact rfl

/-- C6, amended: the secondary filter keeps a finding exactly when the
caller-supplied pattern matches within its link; an absent pattern passes
everything through unchanged; an invalid pattern makes the call fail with
the compilation error as soon as at least one finding reaches the filter,
but with no findings the pattern is never evaluated and the call
succeeds. -/
theorem filter_stage_semantics :
    (∀ (p : List Char → Bool) (items : List Finding),
      filterItems (some (.ok p)) items = .ok (items.filter fun i => p i.link)) ∧
    (∀ items : List Finding, filterItems none items = .ok items) ∧
    (∀ (msg : String) (items : List Finding), items ≠ [] →
      filterItems (some (.error msg)) items = .error (.reError msg)) ∧
    (∀ msg : String, filterItems (some (.error msg)) [] = .ok []) := by
  refine ⟨filterItems_ok_eq, filterItems_none_eq, ?_, ?_⟩
  · intro msg items hne
    cases items with
    | nil => exact absurd rfl hne
    | cons x xs => rfl
  · intro msg
    rfl

/-- C6, witness: the filter equations applied at concrete findings — the
suffix pattern for `.json` keeps the `.json` link and drops the `.js` link,
and an invalid pattern fails on a non-empty findings list. -/
theorem filter_stage_semantics_witness :
    filterItems (some (.ok fun l => (".json").data.isSuffixOf l))
      [{ link := (("x.json").data) }, { link := (("y.js").data) }] =
      .ok ([{ link := (("x.json").data) }, { link := (("y.js").data) }].filter
        fun i => (".json").data.isSuffixOf i.link) ∧
    (([{ link := (("x.json").data) }, { link := (("y.js").data) }] : List Finding).filter
        fun i => (".json").data.isSuffixOf i.link) = [{ link := (("x.json").data) }] ∧
    ([{ link := (("x.json").data) }] : List Finding) ≠ [] ∧
    filterItems (some (.error ("bad pattern"))) [{ link := (("x.json").data) }] =
      .error (.reError ("bad pattern")) :=
  ⟨filter_stage_semantics.1 _ _, by rfl, by simp,
   filter_stage_semantics.2.2.1 ("bad pattern") _ (by simp)⟩

/-- C7, counterexample: the claim fails as stated.  For the input
`"/api/users/123"` the link is extracted via alternative 2 (the
root/relative-path alternative, inner group 3), not via alternative 4: the
leading slash already satisfies alternative 2, which precedes alternative 4
in the ordered alternation. -/
theorem pattern_alt4_counterexample :
    finditer regex_str (("\"/api/users/123\"").data) =
      [{ link := (("/api/users/123").data), startIdx := 0, endIdx := 16, altIdx := 2 }] ∧
    (2 : Nat) ≠ 4 := by
  exact ⟨rfl, by omega⟩

/-- C7, amended: the literal scenarios as the code actually behaves — the
quoted absolute URL is extracted verbatim via alternative 1, the quoted
`/api/users/123` is extracted verbatim via alternative 2 (not 4), and the
short quoted token in `'a'` produces no match. -/
theorem pattern_literal_scenarios :
    finditer regex_str (("\"https://api.example.com/v1/users?id=5\"").data) =
      [{ link := (("https://api.example.com/v1/users?id=5").data),
         startIdx := 0, endIdx := 39, altIdx := 1 }] ∧
    finditer regex_str (("\"/api/users/123\"").data) =
      [{ link := (("/api/users/123").data), startIdx := 0, endIdx := 16, altIdx := 2 }] ∧
    finditer regex_str (("'a'").data) = [] := by
  exact ⟨rfl, rfl, rfl⟩

/-- C3, witness for the amended theorem: a match whose both scans stop on
line-break characters, on the concrete text `"p\nq'r'\ns"`. -/
theorem context_boundary_invariant_witness :
    get_context [((("r").data), 3, 6)] (("p\nq'r'\ns").data) false [ '\n' ] =
      .ok [{ link := ("r").data,
             context := some (pySlice (("p\nq'r'\ns").data) 2 6) }] ∧
    (∀ p ch, 1 < p → p < 6 → ((("p\nq'r'\ns").data)).get? p = some ch → ch = '\n' →
      3 < p ∧ p < 6) ∧
    (∀ chj che, ((("p\nq'r'\ns").data)).get? 1 = some chj → chj = '\n' →
      ((("p\nq'r'\ns").data)).get? 6 = some che → che = '\n' →
      pySlice (("p\nq'r'\ns").data) 1 7 =
        [ '\n' ] ++ pySlice (("p\nq'r'\ns").data) 2 6 ++ [ '\n' ] ∧
      List.IsInfix (pySlice (("p\nq'r'\ns").data) 1 7) (("p\nq'r'\ns").data) ∧
      List.IsInfix (pySlice (("p\nq'r'\ns").data) 3 6)
        (pySlice (("p\nq'r'\ns").data) 1 7)) :=
  context_boundary_invariant (("p\nq'r'\ns").data) '\n' (("r").data) 3 6 1 6 rfl rfl
    (by omega)

/-- C9: on any non-empty, non-whitespace-only content on which the compound
pattern finds no match in the text handed to the matcher, the pipeline
succeeds and returns no endpoints with a total count of zero — even when a
filter pattern (valid or not) was supplied, since no finding ever reaches
the filter loop. -/
theorem no_match_empty_result (b : List Char → List Char) (req : LinkFinderRequest)
    (hne : pyStripEmpty req.content = false)
    (hnm : finditer regex_str
      (if req.include_context then
        (if req.content.length > 1000000 then cheapReplace req.content else b req.content)
       else req.content) = []) :
    analyze_javascript b req = .ok { endpoints := [], total_count := 0 } := by
  unfold analyze_javascript parser_file parserAfterReformat
  rw [hnm]
  simp [hne, get_context, dedup, dedupAux, filterItems, List.mapM.loop]

/-- C9, witness: the concrete content `"q"` without context extraction. -/
theorem no_match_empty_result_witness :
    analyze_javascript id { content := (("q").data), include_context := false } =
      .ok { endpoints := [], total_count := 0 } :=
  no_match_empty_result id
    { content := (("q").data), include_context := false } (by rfl) (by rfl)

/-- C10: the cheap reformatting path inserts the two-character break CR LF
after every `;` and every `,`, while the context delimiter is the single
character LF; consequently a context window whose forward scan stops at an
inserted break keeps the carriage return — shown end-to-end on a concrete
cheap-reformatted text whose only finding has a context ending in CR. -/
theorem cheap_path_crlf_breaks :
    (∀ (b : List Char → List Char) (c : List Char) more nd, 1000000 < c.length →
      parser_file b c true more nd = parserAfterReformat (cheapReplace c) true more nd) ∧
    (∀ c : List Char, cheapReplace c = c.flatMap fun ch =>
      if ch = ';' then [';', '\x0d', '\n']
      else if ch = ',' then [',', '\x0d', '\n']
      else [ ch ]) ∧
    context_delimiter_str = [ '\n' ] ∧
    (parserAfterReformat (cheapReplace (("x=\"/api/users/abc\",y").data)) true none true =
      .ok [{ link := (("/api/users/abc").data),
             context := some (("=\"/api/users/abc\",\r").data) }] ∧
     ((("=\"/api/users/abc\",\r").data).getLast? = some '\x0d')) := by
  refine ⟨?_, cheapReplace_flatMap, rfl, rfl, rfl⟩
  intro b c more nd h
  unfold parser_file
  rw [if_pos h]
  norm_num

/-- C10, witness: the cheap-path equation applied at a text of 1,000,001
characters. -/
theorem cheap_path_crlf_breaks_witness :
    parser_file id (List.replicate 1000001 ';') true none true =
      parserAfterReformat (cheapReplace (List.replicate 1000001 ';')) true none true :=
  cheap_path_crlf_breaks.1 id _ none true
    (by rw [List.length_replicate]; omega)
